import Mathlib

/-!
Shallow embedding of the Petri-net core of the repository `bmo1177/vfdtp1`.

Three Python source files are modelled:
* `petrinetsimple.py` — classes `Place`, `Transition`, `PetriNet` (namespace
  `PetriNetSimple` below);
* `tp101.py` — the same three classes, transcribed independently (namespace
  `Tp101` below);
* `tp1test.py` — class `PetriNetAnalyzer` (namespace `Tp1test` below).

Python `dict`s are modelled as insertion-ordered association lists with
update-in-place semantics (`dictSet`); Python `set`s as duplicate-free lists
keeping first occurrences (`pySet`).  Token counts and arc weights are
modelled as `Int` (Python integers are unbounded).  A Python expression that
can raise `KeyError` (`places[name]` inside `Transition.is_enabled`) is
modelled with `Option`, `none` standing for the raised exception.
-/

/-- Python `d[k] = v` on an insertion-ordered dict: the first entry with key
`k` is updated in place, otherwise the pair is appended. -/
def dictSet {α : Type} : List (String × α) → String → α → List (String × α)
  | [], k, v => [(k, v)]
  | kv :: rest, k, v => if kv.1 = k then (k, v) :: rest else kv :: dictSet rest k v

/-- Python `d[k]` as an `Option`: the first entry with key `k`, if any. -/
def dictGet? {α : Type} : List (String × α) → String → Option α
  | [], _ => none
  | kv :: rest, k => if kv.1 = k then some kv.2 else dictGet? rest k

/-- Python `k in d`. -/
def dictMem {α : Type} (d : List (String × α)) (k : String) : Bool :=
  (dictGet? d k).isSome

/-- In-place mutation of the entry at key `k` (Python mutating `d[k]`). -/
def dictModify {α : Type} : List (String × α) → String → (α → α) → List (String × α)
  | [], _, _ => []
  | kv :: rest, k, f => if kv.1 = k then (kv.1, f kv.2) :: rest else kv :: dictModify rest k f

theorem dictGet?_dictSet_self {α : Type} (d : List (String × α)) (k : String) (v : α) :
    dictGet? (dictSet d k v) k = some v := by
  induction d with
  | nil => simp [dictSet, dictGet?]
  | cons kv rest ih =>
    by_cases h : kv.1 = k
    · simp [dictSet, dictGet?, h]
    · simp [dictSet, dictGet?, h, ih]

theorem dictGet?_dictSet_ne {α : Type} (d : List (String × α)) (k k' : String) (v : α)
    (h : k' ≠ k) : dictGet? (dictSet d k v) k' = dictGet? d k' := by
  have h' : ¬(k = k') := fun hh => h hh.symm
  induction d with
  | nil => simp [dictSet, dictGet?, h']
  | cons kv rest ih =>
    by_cases hk : kv.1 = k
    · subst hk
      simp [dictSet, dictGet?, h']
    · by_cases hk' : kv.1 = k'
      · simp [dictSet, dictGet?, hk, hk', h, h']
      · simp [dictSet, dictGet?, hk, hk', ih]

theorem mem_dictSet {α : Type} {d : List (String × α)} {k : String} {v : α}
    {kv' : String × α} (h : kv' ∈ dictSet d k v) : kv' ∈ d ∨ kv' = (k, v) := by
  induction d with
  | nil => simp [dictSet] at h; simp [h]
  | cons kv rest ih =>
    by_cases hk : kv.1 = k
    · simp [dictSet, hk] at h
      rcases h with h | h
      · right; exact h
      · left; exact List.mem_cons_of_mem _ h
    · simp [dictSet, hk] at h
      rcases h with h | h
      · left; simp [h]
      · rcases ih h with h' | h'
        · left; exact List.mem_cons_of_mem _ h'
        · right; exact h'

theorem mem_dictModify {α : Type} {d : List (String × α)} {k : String} {f : α → α}
    {kv' : String × α} (h : kv' ∈ dictModify d k f) :
    kv' ∈ d ∨ ∃ v, (k, v) ∈ d ∧ kv' = (k, f v) := by
  induction d with
  | nil => simp [dictModify] at h
  | cons kv rest ih =>
    by_cases hk : kv.1 = k
    · simp [dictModify, hk] at h
      rcases h with h | h
      · right
        exact ⟨kv.2, by simp [← hk], by simp [h, hk]⟩
      · left; exact List.mem_cons_of_mem _ h
    · simp [dictModify, hk] at h
      rcases h with h | h
      · left; simp [h]
      · rcases ih h with h' | h'
        · left; exact List.mem_cons_of_mem _ h'
        · rcases h' with ⟨v, hv, hkv⟩
          right; exact ⟨v, List.mem_cons_of_mem _ hv, hkv⟩

theorem dictMem_dictSet_of_dictMem {α : Type} {d : List (String × α)} {k' : String}
    (k : String) (v : α) (h : dictMem d k' = true) :
    dictMem (dictSet d k v) k' = true := by
  by_cases hk : k' = k
  · subst hk
    simp [dictMem, dictGet?_dictSet_self]
  · simpa [dictMem, dictGet?_dictSet_ne _ _ _ _ hk] using h

theorem dictMem_dictSet_self {α : Type} (d : List (String × α)) (k : String) (v : α) :
    dictMem (dictSet d k v) k = true := by
  simp [dictMem, dictGet?_dictSet_self]

/-- One public construction call on a `PetriNet`, shared syntax for the two
transcriptions (`petrinetsimple.py` and `tp101.py`). -/
inductive NetOp where
  | addPlace (name : String) (tokens : Int)
  | addTransition (name : String)
  | addArc (source target : String) (weight : Int)
deriving Repr, DecidableEq

namespace PetriNetSimple

/-- Class `Place` of `petrinetsimple.py`. -/
structure Place where
  name : String
  tokens : Int
deriving Repr, DecidableEq

/-- Class `Transition` of `petrinetsimple.py`: the `input_arcs` and
`output_arcs` dicts map a place name to an arc weight. -/
structure Transition where
  name : String
  input_arcs : List (String × Int)
  output_arcs : List (String × Int)
deriving Repr, DecidableEq

/-- Method `Transition.add_input_arc` of `petrinetsimple.py`. -/
def Transition.add_input_arc (t : Transition) (place : Place) (weight : Int) : Transition :=
  { t with input_arcs := dictSet t.input_arcs place.name weight }

/-- Method `Transition.add_output_arc` of `petrinetsimple.py`. -/
def Transition.add_output_arc (t : Transition) (place : Place) (weight : Int) : Transition :=
  { t with output_arcs := dictSet t.output_arcs place.name weight }

/-- Body of the generator in `Transition.is_enabled`: Python's `all(...)`
evaluates its items left to right, stopping at the first `False`; looking up
a missing place raises `KeyError`, modelled by `none`. -/
def enabledScan (places : List (String × Place)) : List (String × Int) → Option Bool
  | [] => some true
  | (name, weight) :: rest =>
    match dictGet? places name with
    | none => none
    | some p => if weight ≤ p.tokens then enabledScan places rest else some false

/-- Method `Transition.is_enabled` of `petrinetsimple.py`:
`all(places[name].tokens >= weight for name, weight in self.input_arcs.items())`. -/
def Transition.is_enabled (t : Transition) (places : List (String × Place)) : Option Bool :=
  enabledScan places t.input_arcs

/-- Class `PetriNet` of `petrinetsimple.py`.  The `pos` dict of random layout
positions is presentation-only (the spec's §4.2 attaches no semantic meaning
to it) and is omitted. -/
structure PetriNet where
  places : List (String × Place)
  transitions : List (String × Transition)
  arcs : List (String × String × Int)
deriving Repr, DecidableEq

/-- Constructor `PetriNet.__init__` of `petrinetsimple.py`. -/
def PetriNet.empty : PetriNet := ⟨[], [], []⟩

/-- Method `PetriNet.add_place` of `petrinetsimple.py`:
`self.places[name] = Place(name, tokens)` — no duplicate check. -/
def PetriNet.add_place (net : PetriNet) (name : String) (tokens : Int) : PetriNet :=
  { net with places := dictSet net.places name ⟨name, tokens⟩ }

/-- Method `PetriNet.add_transition` of `petrinetsimple.py`. -/
def PetriNet.add_transition (net : PetriNet) (name : String) : PetriNet :=
  { net with transitions := dictSet net.transitions name ⟨name, [], []⟩ }

/-- Method `PetriNet.add_arc` of `petrinetsimple.py`: the triple is appended
to `self.arcs` unconditionally, then the matching transition dict entry is
updated when the endpoints are place→transition or transition→place. -/
def PetriNet.add_arc (net : PetriNet) (source target : String) (weight : Int) : PetriNet :=
  let net1 : PetriNet := { net with arcs := net.arcs ++ [(source, target, weight)] }
  if dictMem net1.places source && dictMem net1.transitions target then
    match dictGet? net1.places source with
    | some p =>
      { net1 with transitions :=
          dictModify net1.transitions target (fun t => t.add_input_arc p weight) }
    | none => net1
  else if dictMem net1.transitions source && dictMem net1.places target then
    match dictGet? net1.places target with
    | some p =>
      { net1 with transitions :=
          dictModify net1.transitions source (fun t => t.add_output_arc p weight) }
    | none => net1
  else net1

/-- Method `PetriNet.is_bounded` of `petrinetsimple.py`:
`all(p.tokens >= 0 for p in self.places.values())`. -/
def PetriNet.is_bounded (net : PetriNet) : Bool :=
  net.places.all (fun kv => 0 ≤ kv.2.tokens)

/-- Body of the generator in `PetriNet.has_live_transitions`: Python's
`any(...)` stops at the first `True`; a `KeyError` raised by `is_enabled`
propagates (`none`). -/
def liveScan (places : List (String × Place)) : List (String × Transition) → Option Bool
  | [] => some false
  | kv :: rest =>
    match kv.2.is_enabled places with
    | none => none
    | some true => some true
    | some false => liveScan places rest

/-- Method `PetriNet.has_live_transitions` of `petrinetsimple.py`:
`any(t.is_enabled(self.places) for t in self.transitions.values())`. -/
def PetriNet.has_live_transitions (net : PetriNet) : Option Bool :=
  liveScan net.places net.transitions

/-- Apply one construction call. -/
def applyOp (net : PetriNet) : NetOp → PetriNet
  | .addPlace name tokens => net.add_place name tokens
  | .addTransition name => net.add_transition name
  | .addArc source target weight => net.add_arc source target weight

/-- Apply a sequence of construction calls to a given net. -/
def runOps : PetriNet → List NetOp → PetriNet
  | net, [] => net
  | net, op :: rest => runOps (applyOp net op) rest

/-- The net built from the empty net by a sequence of construction calls. -/
def run (ops : List NetOp) : PetriNet := runOps PetriNet.empty ops

end PetriNetSimple

namespace Tp101

/-- Class `Place` of `tp101.py`. -/
structure Place where
  name : String
  tokens : Int
deriving Repr, DecidableEq

/-- Class `Transition` of `tp101.py`. -/
structure Transition where
  name : String
  input_arcs : List (String × Int)
  output_arcs : List (String × Int)
deriving Repr, DecidableEq

/-- Method `Transition.add_input_arc` of `tp101.py`. -/
def Transition.add_input_arc (t : Transition) (place : Place) (weight : Int) : Transition :=
  { t with input_arcs := dictSet t.input_arcs place.name weight }

/-- Method `Transition.add_output_arc` of `tp101.py`. -/
def Transition.add_output_arc (t : Transition) (place : Place) (weight : Int) : Transition :=
  { t with output_arcs := dictSet t.output_arcs place.name weight }

/-- Body of the generator in `Transition.is_enabled` of `tp101.py`. -/
def enabledScanT : List (String × Place) → List (String × Int) → Option Bool
  | _, [] => some true
  | places, (name, weight) :: rest =>
    match dictGet? places name with
    | none => none
    | some p => if weight ≤ p.tokens then enabledScanT places rest else some false

/-- Method `Transition.is_enabled` of `tp101.py`. -/
def Transition.is_enabled (t : Transition) (places : List (String × Place)) : Option Bool :=
  enabledScanT places t.input_arcs

/-- Class `PetriNet` of `tp101.py` (layout `pos` dict omitted as in the
`petrinetsimple.py` model). -/
structure PetriNet where
  places : List (String × Place)
  transitions : List (String × Transition)
  arcs : List (String × String × Int)
deriving Repr, DecidableEq

/-- Constructor `PetriNet.__init__` of `tp101.py`. -/
def PetriNet.empty : PetriNet := ⟨[], [], []⟩

/-- Method `PetriNet.add_place` of `tp101.py`. -/
def PetriNet.add_place (net : PetriNet) (name : String) (tokens : Int) : PetriNet :=
  { net with places := dictSet net.places name ⟨name, tokens⟩ }

/-- Method `PetriNet.add_transition` of `tp101.py`. -/
def PetriNet.add_transition (net : PetriNet) (name : String) : PetriNet :=
  { net with transitions := dictSet net.transitions name ⟨name, [], []⟩ }

/-- Method `PetriNet.add_arc` of `tp101.py`. -/
def PetriNet.add_arc (net : PetriNet) (source target : String) (weight : Int) : PetriNet :=
  let net1 : PetriNet := { net with arcs := net.arcs ++ [(source, target, weight)] }
  if dictMem net1.places source && dictMem net1.transitions target then
    match dictGet? net1.places source with
    | some p =>
      { net1 with transitions :=
          dictModify net1.transitions target (fun t => t.add_input_arc p weight) }
    | none => net1
  else if dictMem net1.transitions source && dictMem net1.places target then
    match dictGet? net1.places target with
    | some p =>
      { net1 with transitions :=
          dictModify net1.transitions source (fun t => t.add_output_arc p weight) }
    | none => net1
  else net1

/-- Method `PetriNet.is_bounded` of `tp101.py`. -/
def PetriNet.is_bounded (net : PetriNet) : Bool :=
  net.places.all (fun kv => 0 ≤ kv.2.tokens)

/-- Body of the generator in `PetriNet.has_live_transitions` of `tp101.py`. -/
def liveScanT : List (String × Place) → List (String × Transition) → Option Bool
  | _, [] => some false
  | places, kv :: rest =>
    match kv.2.is_enabled places with
    | none => none
    | some true => some true
    | some false => liveScanT places rest

/-- Method `PetriNet.has_live_transitions` of `tp101.py`. -/
def PetriNet.has_live_transitions (net : PetriNet) : Option Bool :=
  liveScanT net.places net.transitions

/-- Apply one construction call (`tp101.py` variant). -/
def applyOpT (net : PetriNet) : NetOp → PetriNet
  | .addPlace name tokens => net.add_place name tokens
  | .addTransition name => net.add_transition name
  | .addArc source target weight => net.add_arc source target weight

/-- Apply a sequence of construction calls (`tp101.py` variant). -/
def runOpsT : PetriNet → List NetOp → PetriNet
  | net, [] => net
  | net, op :: rest => runOpsT (applyOpT net op) rest

/-- The net `tp101.py` builds from the empty net by a sequence of calls. -/
def run (ops : List NetOp) : PetriNet := runOpsT PetriNet.empty ops

end Tp101

namespace Tp1test

/-- Python `s.strip()` with no argument: remove leading and trailing
whitespace characters. -/
def pyStrip (s : String) : String :=
  ⟨((s.data.dropWhile Char.isWhitespace).reverse.dropWhile Char.isWhitespace).reverse⟩

/-- Python `set(l)` for a list of strings, modelled as a duplicate-free list.
Python chooses an implementation-defined iteration order; the model fixes
the order of first occurrences (any fixed order is behaviourally adequate
for the analyzer, whose results depend on the order only through the order
of `get_enabled_transitions`). -/
def pySetAux : List String → List String → List String
  | _, [] => []
  | seen, s :: rest =>
    if s ∈ seen then pySetAux seen rest else s :: pySetAux (s :: seen) rest

/-- Python `set(l)`. -/
def pySet (l : List String) : List String := pySetAux [] l

/-- Minimal model of the `networkx.DiGraph` held by the analyzer: node list
and edge list (`_build_graph` adds all places and transitions as nodes and
all arcs as edges). -/
structure Graph where
  nodes : List String
  edges : List (String × String)
deriving Repr, DecidableEq

/-- Empty graph (`nx.DiGraph()` in `__init__`). -/
def Graph.empty : Graph := ⟨[], []⟩

/-- Class `PetriNetAnalyzer` of `tp1test.py` (visualization colour fields
omitted — they carry no analysis semantics). -/
structure PetriNetAnalyzer where
  places : List String
  transitions : List String
  arcs : List (String × String)
  marking : List (String × Int)
  graph : Graph
deriving Repr, DecidableEq

/-- Constructor `PetriNetAnalyzer.__init__`. -/
def PetriNetAnalyzer.init : PetriNetAnalyzer := ⟨[], [], [], [], Graph.empty⟩

/-- Typed model of the `ValueError`s raised by `_validate_network`, one
constructor per raise site. -/
inductive LoadError where
  | invalidSource (name : String)
  | invalidDest (name : String)
  | unknownPlace (name : String)
deriving Repr, DecidableEq

/-- First loop of `_validate_network`: arcs are checked in order, the source
before the destination. -/
def validateArcs (places transitions : List String) :
    List (String × String) → Option LoadError
  | [] => none
  | (src, dest) :: rest =>
    if ¬ (src ∈ places) ∧ ¬ (src ∈ transitions) then some (.invalidSource src)
    else if ¬ (dest ∈ places) ∧ ¬ (dest ∈ transitions) then some (.invalidDest dest)
    else validateArcs places transitions rest

/-- Second loop of `_validate_network`: marking keys in insertion order. -/
def validateMarking (places : List String) : List (String × Int) → Option LoadError
  | [] => none
  | (p, _) :: rest =>
    if ¬ (p ∈ places) then some (.unknownPlace p) else validateMarking places rest

/-- Method `PetriNetAnalyzer._validate_network`. -/
def PetriNetAnalyzer.validate_network (a : PetriNetAnalyzer) : Option LoadError :=
  match validateArcs a.places a.transitions a.arcs with
  | some e => some e
  | none => validateMarking a.places a.marking

/-- Method `PetriNetAnalyzer._build_graph`: `self.graph.clear()` then nodes
from places and transitions, edges from arcs. -/
def PetriNetAnalyzer.build_graph (a : PetriNetAnalyzer) : PetriNetAnalyzer :=
  { a with graph := ⟨a.places ++ a.transitions, a.arcs⟩ }

/-- Method `PetriNetAnalyzer.load_network`.  Python first overwrites the
four data fields, then validates, then builds the graph; an error raised by
`_validate_network` therefore leaves the fields already overwritten and only
the graph untouched.  The pair returned is (state of `self` when the call
ends, error raised if any). -/
def PetriNetAnalyzer.load_network (a : PetriNetAnalyzer)
    (places transitions : List String) (arcs : List (String × String))
    (marking : List (String × Int)) : PetriNetAnalyzer × Option LoadError :=
  let a1 : PetriNetAnalyzer :=
    { places := pySet places
      transitions := pySet transitions
      arcs := arcs.map (fun sd => (pyStrip sd.1, pyStrip sd.2))
      marking := marking.foldl (fun d pv => dictSet d (pyStrip pv.1) pv.2) []
      graph := a.graph }
  match a1.validate_network with
  | some e => (a1, some e)
  | none => (a1.build_graph, none)

/-- Method `PetriNetAnalyzer.analyze_boundedness`:
`all(isinstance(m, int) and m >= 0 for m in self.marking.values())`
(`isinstance` is always true in the model, where values are integers). -/
def PetriNetAnalyzer.analyze_boundedness (a : PetriNetAnalyzer) : Bool :=
  a.marking.all (fun pv => 0 ≤ pv.2)

/-- Set comprehension over arc sources, `src for src, dest in self.arcs if dest == t`, as a
list of sources (duplicates are harmless: the set is only tested for
emptiness and universally quantified over). -/
def inputsOf (a : PetriNetAnalyzer) (t : String) : List String :=
  a.arcs.filterMap (fun sd => if sd.2 = t then some sd.1 else none)

/-- Set comprehension over arc targets, `dest for src, dest in self.arcs if src == t`. -/
def outputsOf (a : PetriNetAnalyzer) (t : String) : List String :=
  a.arcs.filterMap (fun sd => if sd.1 = t then some sd.2 else none)

/-- Python `self.marking.get(p, 0)`. -/
def markingGet (a : PetriNetAnalyzer) (p : String) : Int :=
  (dictGet? a.marking p).getD 0

/-- Loop body of `analyze_liveness`: `inputs and outputs and
all(self.marking.get(p, 0) > 0 for p in inputs)`. -/
def liveCond (a : PetriNetAnalyzer) (t : String) : Bool :=
  !(inputsOf a t).isEmpty && !(outputsOf a t).isEmpty &&
    (inputsOf a t).all (fun p => 0 < markingGet a p)

/-- Method `PetriNetAnalyzer.analyze_liveness`:
`live_count / len(self.transitions) if self.transitions else 0.0`.  The
Python float quotient of the two small integers is modelled exactly in ℚ. -/
def PetriNetAnalyzer.analyze_liveness (a : PetriNetAnalyzer) : ℚ :=
  if a.transitions.isEmpty then 0
  else ((a.transitions.filter (liveCond a)).length : ℚ) / (a.transitions.length : ℚ)

/-- Loop body of `get_enabled_transitions`: `inputs and
all(self.marking.get(p, 0) > 0 for p in inputs)`. -/
def enabledCond (a : PetriNetAnalyzer) (t : String) : Bool :=
  !(inputsOf a t).isEmpty && (inputsOf a t).all (fun p => 0 < markingGet a p)

/-- Method `PetriNetAnalyzer.get_enabled_transitions`: appends, in iteration
order of `self.transitions`, every transition whose loop condition holds. -/
def PetriNetAnalyzer.get_enabled_transitions (a : PetriNetAnalyzer) : List String :=
  a.transitions.filter (enabledCond a)

end Tp1test

namespace PetriNetSimple

theorem add_arc_places (net : PetriNet) (source target : String) (weight : Int) :
    (net.add_arc source target weight).places = net.places := by
  unfold PetriNet.add_arc
  dsimp only
  split
  · split <;> rfl
  · split
    · split <;> rfl
    · rfl

theorem add_arc_arcs (net : PetriNet) (source target : String) (weight : Int) :
    (net.add_arc source target weight).arcs = net.arcs ++ [(source, target, weight)] := by
  unfold PetriNet.add_arc
  dsimp only
  split
  · split <;> rfl
  · split
    · split <;> rfl
    · rfl

/-- Whether a construction call carries a non-negative token count (only
`addPlace` carries one). -/
def NetOp.nonnegTokens : NetOp → Bool
  | .addPlace _ tokens => 0 ≤ tokens
  | .addTransition _ => true
  | .addArc _ _ _ => true

theorem places_nonneg_runOps (ops : List NetOp) (net : PetriNet)
    (hnet : ∀ kv ∈ net.places, 0 ≤ kv.2.tokens)
    (hops : ∀ op ∈ ops, NetOp.nonnegTokens op = true) :
    ∀ kv ∈ (runOps net ops).places, 0 ≤ kv.2.tokens := by
  induction ops generalizing net with
  | nil => exact hnet
  | cons op rest ih =>
    refine ih (applyOp net op) ?_ (fun o ho => hops o (List.mem_cons_of_mem _ ho))
    have hop := hops op (List.mem_cons_self _ _)
    cases op with
    | addPlace name tokens =>
      intro kv hkv
      rcases mem_dictSet hkv with h | h
      · exact hnet kv h
      · subst h
        simpa [NetOp.nonnegTokens, decide_eq_true_eq] using hop
    | addTransition name => exact hnet
    | addArc s t w =>
      intro kv hkv
      rw [applyOp, add_arc_places] at hkv
      exact hnet kv hkv

end PetriNetSimple

/-- C1 counterexample input: a net with the two places `p1`, `p2` and an
`add_arc` call between them. -/
def c1Net : PetriNetSimple.PetriNet :=
  PetriNetSimple.run [.addPlace "p1" 0, .addPlace "p2" 0]

/-- C1: the claim predicts that `add_arc` between two places fails and
leaves the arc list length unchanged; on the code the call raises nothing
and the arc list grows from 0 to 1 entries. -/
theorem c1_counterexample :
    c1Net.arcs.length = 0 ∧
    (c1Net.add_arc "p1" "p2" 1).arcs.length = 1 ∧
    (c1Net.add_arc "p1" "p2" 1).arcs = [("p1", "p2", 1)] := by decide

/-- C1 (amended): when neither endpoint combination place→transition nor
transition→place holds — which covers two pure places, two pure
transitions, and unknown endpoints — `add_arc` silently appends the triple
to the arc list (raising no error) and leaves the places and every
transition's input/output maps unchanged. -/
theorem c1_add_arc_invalid_appends (net : PetriNetSimple.PetriNet)
    (source target : String) (weight : Int)
    (hin : ¬(dictMem net.places source = true ∧ dictMem net.transitions target = true))
    (hout : ¬(dictMem net.transitions source = true ∧ dictMem net.places target = true)) :
    (net.add_arc source target weight).arcs = net.arcs ++ [(source, target, weight)] ∧
    (net.add_arc source target weight).transitions = net.transitions ∧
    (net.add_arc source target weight).places = net.places := by
  refine ⟨PetriNetSimple.add_arc_arcs net source target weight, ?_,
    PetriNetSimple.add_arc_places net source target weight⟩
  unfold PetriNetSimple.PetriNet.add_arc
  rw [if_neg (by simpa [Bool.and_eq_true] using hin),
    if_neg (by simpa [Bool.and_eq_true] using hout)]

/-- C1 witness: the amended theorem applied to the concrete two-place net. -/
theorem c1_add_arc_invalid_appends_witness :
    (c1Net.add_arc "p1" "p2" 1).arcs = c1Net.arcs ++ [("p1", "p2", 1)] ∧
    (c1Net.add_arc "p1" "p2" 1).transitions = c1Net.transitions ∧
    (c1Net.add_arc "p1" "p2" 1).places = c1Net.places :=
  c1_add_arc_invalid_appends c1Net "p1" "p2" 1 (by decide) (by decide)

/-- C2: `add_place` does not validate the token count, so a single public
call produces a place with −1 tokens and forces `is_bounded` to return
false, refuting the claimed unforceable invariant. -/
theorem c2_counterexample :
    (PetriNetSimple.run [.addPlace "p1" (-1)]).is_bounded = false ∧
    dictGet? (PetriNetSimple.run [.addPlace "p1" (-1)]).places "p1" =
      some ⟨"p1", -1⟩ := by decide

/-- C2 (amended): the code never validates token counts, so the invariant
holds only for call sequences whose `addPlace` calls all carry a
non-negative count; for every such sequence every place's token count is
non-negative and `is_bounded` returns true. -/
theorem c2_nonneg_invariant (ops : List NetOp)
    (h : ∀ op ∈ ops, PetriNetSimple.NetOp.nonnegTokens op = true) :
    (∀ kv ∈ (PetriNetSimple.run ops).places, 0 ≤ kv.2.tokens) ∧
    (PetriNetSimple.run ops).is_bounded = true := by
  have hp := PetriNetSimple.places_nonneg_runOps ops PetriNetSimple.PetriNet.empty
    (by intro kv hkv; cases hkv) h
  refine ⟨hp, ?_⟩
  rw [PetriNetSimple.PetriNet.is_bounded, List.all_eq_true]
  intro kv hkv
  simpa [decide_eq_true_eq] using hp kv hkv

/-- C2 witness: the amended theorem applied to a concrete three-call
sequence with non-negative token counts. -/
theorem c2_nonneg_invariant_witness :
    (∀ kv ∈ (PetriNetSimple.run
      [.addPlace "p1" 2, .addTransition "t1", .addArc "p1" "t1" 1]).places,
        0 ≤ kv.2.tokens) ∧
    (PetriNetSimple.run
      [.addPlace "p1" 2, .addTransition "t1", .addArc "p1" "t1" 1]).is_bounded = true :=
  c2_nonneg_invariant [.addPlace "p1" 2, .addTransition "t1", .addArc "p1" "t1" 1]
    (by decide)

/-- C3: `add_place` has no duplicate check — repeating a name raises
nothing and silently replaces the first place, so its token count (1) is
lost and becomes 0, refuting both halves of the claim. -/
theorem c3_counterexample :
    (PetriNetSimple.run [.addPlace "p1" 1, .addPlace "p1" 0]).places =
      [("p1", ⟨"p1", 0⟩)] := by decide

/-- C3 (amended): `add_place` and `add_transition` never fail; a reused
name silently overwrites the node of the same kind (last write wins), and
places and transitions do not share a namespace — after `add_place` of a
name, `add_transition` of the same name leaves the place intact while also
registering a transition. -/
theorem c3_add_place_overwrites (net : PetriNetSimple.PetriNet)
    (name : String) (t1 t2 : Int) :
    dictGet? ((net.add_place name t1).add_place name t2).places name =
      some ⟨name, t2⟩ ∧
    ((net.add_place name t1).add_place name t2).transitions = net.transitions ∧
    ((net.add_place name t1).add_place name t2).arcs = net.arcs ∧
    dictGet? ((net.add_place name t1).add_transition name).places name =
      some ⟨name, t1⟩ ∧
    dictGet? ((net.add_place name t1).add_transition name).transitions name =
      some ⟨name, [], []⟩ := by
  refine ⟨?_, rfl, rfl, ?_, ?_⟩
  · exact dictGet?_dictSet_self _ _ _
  · exact dictGet?_dictSet_self _ _ _
  · exact dictGet?_dictSet_self _ _ _

namespace PetriNetSimple

theorem enabledScan_eq_some_true (places : List (String × Place))
    (l : List (String × Int)) :
    enabledScan places l = some true ↔
      ∀ pw ∈ l, ∃ p, dictGet? places pw.1 = some p ∧ pw.2 ≤ p.tokens := by
  induction l with
  | nil => simp [enabledScan]
  | cons pw rest ih =>
    obtain ⟨name, weight⟩ := pw
    rw [enabledScan]
    cases h : dictGet? places name with
    | none =>
      constructor
      · intro hfalse; cases hfalse
      · intro hall
        rcases hall (name, weight) (List.mem_cons_self _ _) with ⟨p, hp, _⟩
        rw [h] at hp; cases hp
    | some p =>
      show (if weight ≤ p.tokens then enabledScan places rest else some false) =
          some true ↔ _
      by_cases hw : weight ≤ p.tokens
      · rw [if_pos hw, ih]
        constructor
        · intro hall pw' hpw'
          rcases List.mem_cons.mp hpw' with hh | hmem
          · subst hh; exact ⟨p, h, hw⟩
          · exact hall pw' hmem
        · intro hall pw' hpw'
          exact hall pw' (List.mem_cons_of_mem _ hpw')
      · rw [if_neg hw]
        constructor
        · intro hfalse; cases hfalse
        · intro hall
          rcases hall (name, weight) (List.mem_cons_self _ _) with ⟨p', hp', hw'⟩
          rw [h] at hp'
          injection hp' with hp''
          subst hp''
          exact absurd hw' hw

theorem enabledScan_isSome (places : List (String × Place))
    (l : List (String × Int)) (h : ∀ pw ∈ l, dictMem places pw.1 = true) :
    (enabledScan places l).isSome = true := by
  induction l with
  | nil => simp [enabledScan]
  | cons pw rest ih =>
    obtain ⟨name, weight⟩ := pw
    rw [enabledScan]
    have hmem := h (name, weight) (List.mem_cons_self _ _)
    rw [dictMem] at hmem
    cases hp : dictGet? places name with
    | none => rw [hp] at hmem; cases hmem
    | some p =>
      show (if weight ≤ p.tokens then enabledScan places rest
        else some false).isSome = true
      by_cases hw : weight ≤ p.tokens
      · rw [if_pos hw]
        exact ih (fun pw' hpw' => h pw' (List.mem_cons_of_mem _ hpw'))
      · rw [if_neg hw]; rfl

theorem liveScan_eq_some_true (places : List (String × Place))
    (l : List (String × Transition))
    (hall : ∀ kv ∈ l, (Transition.is_enabled kv.2 places).isSome = true) :
    liveScan places l = some true ↔
      ∃ kv ∈ l, kv.2.is_enabled places = some true := by
  induction l with
  | nil => simp [liveScan]
  | cons kv rest ih =>
    rw [liveScan]
    have hs := hall kv (List.mem_cons_self _ _)
    cases he : kv.2.is_enabled places with
    | none => rw [he] at hs; cases hs
    | some b =>
      cases b with
      | true => simp [he]
      | false =>
        rw [ih (fun kv' hkv' => hall kv' (List.mem_cons_of_mem _ hkv'))]
        constructor
        · intro ⟨kv', hkv', hkv''⟩
          exact ⟨kv', List.mem_cons_of_mem _ hkv', hkv''⟩
        · intro ⟨kv', hkv', hkv''⟩
          rcases List.mem_cons.mp hkv' with hh | hmem
          · subst hh; rw [he] at hkv''; cases hkv''
          · exact ⟨kv', hmem, hkv''⟩

theorem liveScan_isSome (places : List (String × Place))
    (l : List (String × Transition))
    (hall : ∀ kv ∈ l, (Transition.is_enabled kv.2 places).isSome = true) :
    (liveScan places l).isSome = true := by
  induction l with
  | nil => simp [liveScan]
  | cons kv rest ih =>
    rw [liveScan]
    have hs := hall kv (List.mem_cons_self _ _)
    cases he : kv.2.is_enabled places with
    | none => rw [he] at hs; cases hs
    | some b =>
      cases b with
      | true => rfl
      | false => exact ih (fun kv' hkv' => hall kv' (List.mem_cons_of_mem _ hkv'))

/-- Structural invariant maintained by the three construction calls: every
place entry is stored under its own name, and every place name appearing in
a transition's input or output arc map is a key of the places map. -/
def NetInv (net : PetriNet) : Prop :=
  (∀ kv ∈ net.places, kv.2.name = kv.1) ∧
  (∀ kv ∈ net.transitions,
    (∀ pw ∈ kv.2.input_arcs, dictMem net.places pw.1 = true) ∧
    (∀ pw ∈ kv.2.output_arcs, dictMem net.places pw.1 = true))

theorem dictGet?_mem {α : Type} {d : List (String × α)} {k : String} {v : α}
    (h : dictGet? d k = some v) : (k, v) ∈ d := by
  induction d with
  | nil => cases h
  | cons kv rest ih =>
    rw [dictGet?] at h
    by_cases hk : kv.1 = k
    · rw [if_pos hk] at h
      injection h with h'
      subst h'
      subst hk
      exact List.mem_cons_self _ _
    · rw [if_neg hk] at h
      exact List.mem_cons_of_mem _ (ih h)

theorem netInv_add_place {net : PetriNet} (h : NetInv net) (name : String)
    (tokens : Int) : NetInv (net.add_place name tokens) := by
  obtain ⟨hnames, harcs⟩ := h
  constructor
  · intro kv hkv
    rcases mem_dictSet hkv with hm | hm
    · exact hnames kv hm
    · subst hm; rfl
  · intro kv hkv
    refine ⟨fun pw hpw => ?_, fun pw hpw => ?_⟩
    · exact dictMem_dictSet_of_dictMem _ _ ((harcs kv hkv).1 pw hpw)
    · exact dictMem_dictSet_of_dictMem _ _ ((harcs kv hkv).2 pw hpw)

theorem netInv_add_transition {net : PetriNet} (h : NetInv net) (name : String) :
    NetInv (net.add_transition name) := by
  obtain ⟨hnames, harcs⟩ := h
  refine ⟨hnames, fun kv hkv => ?_⟩
  rcases mem_dictSet hkv with hm | hm
  · exact harcs kv hm
  · subst hm
    exact ⟨fun pw hpw => absurd hpw (List.not_mem_nil pw),
      fun pw hpw => absurd hpw (List.not_mem_nil pw)⟩

theorem netInv_add_arc {net : PetriNet} (h : NetInv net)
    (source target : String) (weight : Int) :
    NetInv (net.add_arc source target weight) := by
  obtain ⟨hnames, harcs⟩ := h
  unfold PetriNet.add_arc
  dsimp only
  split
  · cases hp : dictGet? net.places source with
    | none => exact ⟨hnames, harcs⟩
    | some p =>
      refine ⟨hnames, fun kv hkv => ?_⟩
      rcases mem_dictModify hkv with hm | ⟨v, hv, hkv'⟩
      · exact harcs kv hm
      · subst hkv'
        refine ⟨fun pw hpw => ?_, fun pw hpw => (harcs (target, v) hv).2 pw hpw⟩
        rcases mem_dictSet hpw with hm | hm
        · exact (harcs (target, v) hv).1 pw hm
        · subst hm
          have hpn : p.name = source := hnames (source, p) (dictGet?_mem hp)
          rw [hpn, dictMem, hp]
          rfl
  · split
    · cases hp : dictGet? net.places target with
      | none => exact ⟨hnames, harcs⟩
      | some p =>
        refine ⟨hnames, fun kv hkv => ?_⟩
        rcases mem_dictModify hkv with hm | ⟨v, hv, hkv'⟩
        · exact harcs kv hm
        · subst hkv'
          refine ⟨fun pw hpw => (harcs (source, v) hv).1 pw hpw, fun pw hpw => ?_⟩
          rcases mem_dictSet hpw with hm | hm
          · exact (harcs (source, v) hv).2 pw hm
          · subst hm
            have hpn : p.name = target := hnames (target, p) (dictGet?_mem hp)
            rw [hpn, dictMem, hp]
            rfl
    · exact ⟨hnames, harcs⟩

theorem netInv_runOps (ops : List NetOp) (net : PetriNet) (h : NetInv net) :
    NetInv (runOps net ops) := by
  induction ops generalizing net with
  | nil => exact h
  | cons op rest ih =>
    refine ih (applyOp net op) ?_
    cases op with
    | addPlace name tokens => exact netInv_add_place h name tokens
    | addTransition name => exact netInv_add_transition h name
    | addArc s t w => exact netInv_add_arc h s t w

theorem netInv_empty : NetInv PetriNet.empty :=
  ⟨fun kv hkv => absurd hkv (List.not_mem_nil kv),
    fun kv hkv => absurd hkv (List.not_mem_nil kv)⟩

end PetriNetSimple

/-- C5: weight-aware enabling — `is_enabled` returns true exactly when every
`(place, weight)` entry of the transition's input arc map finds its place and
the place holds at least `weight` tokens; an empty input arc map is vacuously
enabled; and (on any net whose transitions all evaluate without a `KeyError`,
which holds for every constructible net) `has_live_transitions` returns true
exactly when at least one transition is enabled under this rule. -/
theorem c5_enabling_rule (places : List (String × PetriNetSimple.Place))
    (t : PetriNetSimple.Transition) (net : PetriNetSimple.PetriNet)
    (hok : ∀ kv ∈ net.transitions,
      (PetriNetSimple.Transition.is_enabled kv.2 net.places).isSome = true) :
    (t.is_enabled places = some true ↔
      ∀ pw ∈ t.input_arcs, ∃ p, dictGet? places pw.1 = some p ∧ pw.2 ≤ p.tokens) ∧
    (t.input_arcs = [] → t.is_enabled places = some true) ∧
    (net.has_live_transitions = some true ↔
      ∃ kv ∈ net.transitions, kv.2.is_enabled net.places = some true) := by
  constructor
  · rw [PetriNetSimple.Transition.is_enabled]
    exact PetriNetSimple.enabledScan_eq_some_true places t.input_arcs
  constructor
  · intro h
    rw [PetriNetSimple.Transition.is_enabled, h]
    rfl
  · rw [PetriNetSimple.PetriNet.has_live_transitions]
    exact PetriNetSimple.liveScan_eq_some_true net.places net.transitions hok

/-- C5 witness: on the concrete net `p1(1 token) → t1`, the theorem yields
that `has_live_transitions` returns true. -/
theorem c5_enabling_rule_witness :
    (PetriNetSimple.run
      [.addPlace "p1" 1, .addTransition "t1",
       .addArc "p1" "t1" 1]).has_live_transitions = some true := by
  refine (c5_enabling_rule [] ⟨"t1", [], []⟩ _ (by decide)).2.2.mpr ?_
  exact ⟨("t1", ⟨"t1", [("p1", 1)], []⟩), by decide, by decide⟩

/-- C9: on every net built from the empty net by construction calls, every
place name in any transition's input or output arc map is a key of the
places map; consequently `is_enabled` evaluates without a `KeyError` on
every transition of the net (its `Option` result is `some`), and so does
`has_live_transitions`. -/
theorem c9_arc_keys_closed (ops : List NetOp) :
    (∀ kv ∈ (PetriNetSimple.run ops).transitions,
      (∀ pw ∈ kv.2.input_arcs,
        dictMem (PetriNetSimple.run ops).places pw.1 = true) ∧
      (∀ pw ∈ kv.2.output_arcs,
        dictMem (PetriNetSimple.run ops).places pw.1 = true)) ∧
    (∀ kv ∈ (PetriNetSimple.run ops).transitions,
      (kv.2.is_enabled (PetriNetSimple.run ops).places).isSome = true) ∧
    ((PetriNetSimple.run ops).has_live_transitions).isSome = true := by
  have hinv := PetriNetSimple.netInv_runOps ops PetriNetSimple.PetriNet.empty
    PetriNetSimple.netInv_empty
  obtain ⟨_, harcs⟩ := hinv
  have hsome : ∀ kv ∈ (PetriNetSimple.run ops).transitions,
      (PetriNetSimple.Transition.is_enabled kv.2
        (PetriNetSimple.run ops).places).isSome = true := by
    intro kv hkv
    rw [PetriNetSimple.Transition.is_enabled]
    exact PetriNetSimple.enabledScan_isSome _ _ ((harcs kv hkv).1)
  refine ⟨harcs, hsome, ?_⟩
  rw [PetriNetSimple.PetriNet.has_live_transitions]
  exact PetriNetSimple.liveScan_isSome _ _ hsome

/-- C9 witness: the theorem applied to a concrete three-call sequence. -/
theorem c9_arc_keys_closed_witness :
    ((PetriNetSimple.run
      [.addPlace "p1" 1, .addTransition "t1",
       .addArc "p1" "t1" 1]).has_live_transitions).isSome = true :=
  (c9_arc_keys_closed
    [.addPlace "p1" 1, .addTransition "t1", .addArc "p1" "t1" 1]).2.2

theorem dictSet_keyMap {α β : Type} (g : α → β) (d : List (String × α))
    (k : String) (v : α) :
    (dictSet d k v).map (fun kv => (kv.1, g kv.2)) =
      dictSet (d.map (fun kv => (kv.1, g kv.2))) k (g v) := by
  induction d with
  | nil => rfl
  | cons kv rest ih =>
    by_cases h : kv.1 = k
    · simp [dictSet, h]
    · simp [dictSet, h, ih]

theorem dictGet?_keyMap {α β : Type} (g : α → β) (d : List (String × α))
    (k : String) :
    dictGet? (d.map (fun kv => (kv.1, g kv.2))) k = (dictGet? d k).map g := by
  induction d with
  | nil => rfl
  | cons kv rest ih =>
    by_cases h : kv.1 = k
    · simp [dictGet?, h]
    · simp [dictGet?, h, ih]

theorem dictMem_keyMap {α β : Type} (g : α → β) (d : List (String × α))
    (k : String) :
    dictMem (d.map (fun kv => (kv.1, g kv.2))) k = dictMem d k := by
  rw [dictMem, dictMem, dictGet?_keyMap]
  cases dictGet? d k <;> rfl

theorem dictModify_keyMap {α β : Type} (g : α → β) (f : α → α) (f2 : β → β)
    (hc : ∀ a, g (f a) = f2 (g a)) (d : List (String × α)) (k : String) :
    (dictModify d k f).map (fun kv => (kv.1, g kv.2)) =
      dictModify (d.map (fun kv => (kv.1, g kv.2))) k f2 := by
  induction d with
  | nil => rfl
  | cons kv rest ih =>
    by_cases h : kv.1 = k
    · simp [dictModify, h, hc]
    · simp [dictModify, h, ih]

/-- Field-preserving correspondence between the `Place` classes of the two
files. -/
def Tp101.Place.toSimple (p : Tp101.Place) : PetriNetSimple.Place :=
  ⟨p.name, p.tokens⟩

/-- Field-preserving correspondence between the `Transition` classes. -/
def Tp101.Transition.toSimple (t : Tp101.Transition) : PetriNetSimple.Transition :=
  ⟨t.name, t.input_arcs, t.output_arcs⟩

/-- Field-preserving correspondence between the `PetriNet` classes. -/
def Tp101.PetriNet.toSimple (n : Tp101.PetriNet) : PetriNetSimple.PetriNet :=
  ⟨n.places.map (fun kv => (kv.1, kv.2.toSimple)),
   n.transitions.map (fun kv => (kv.1, kv.2.toSimple)),
   n.arcs⟩

theorem toSimple_places (n : Tp101.PetriNet) :
    n.toSimple.places = n.places.map (fun kv => (kv.1, kv.2.toSimple)) := rfl

theorem toSimple_transitions (n : Tp101.PetriNet) :
    n.toSimple.transitions = n.transitions.map (fun kv => (kv.1, kv.2.toSimple)) := rfl

theorem toSimple_arcs (n : Tp101.PetriNet) : n.toSimple.arcs = n.arcs := rfl

theorem toSimple_add_place (n : Tp101.PetriNet) (name : String) (tokens : Int) :
    (n.add_place name tokens).toSimple = n.toSimple.add_place name tokens := by
  unfold Tp101.PetriNet.toSimple Tp101.PetriNet.add_place
    PetriNetSimple.PetriNet.add_place
  dsimp only
  rw [dictSet_keyMap Tp101.Place.toSimple]
  rfl

theorem toSimple_add_transition (n : Tp101.PetriNet) (name : String) :
    (n.add_transition name).toSimple = n.toSimple.add_transition name := by
  unfold Tp101.PetriNet.toSimple Tp101.PetriNet.add_transition
    PetriNetSimple.PetriNet.add_transition
  dsimp only
  rw [dictSet_keyMap Tp101.Transition.toSimple]
  rfl

theorem toSimple_add_input_arc (t : Tp101.Transition) (p : Tp101.Place) (w : Int) :
    (t.add_input_arc p w).toSimple = t.toSimple.add_input_arc p.toSimple w := rfl

theorem toSimple_add_output_arc (t : Tp101.Transition) (p : Tp101.Place) (w : Int) :
    (t.add_output_arc p w).toSimple = t.toSimple.add_output_arc p.toSimple w := rfl

theorem toSimple_add_arc (n : Tp101.PetriNet) (s t : String) (w : Int) :
    (n.add_arc s t w).toSimple = n.toSimple.add_arc s t w := by
  unfold Tp101.PetriNet.add_arc PetriNetSimple.PetriNet.add_arc
  dsimp only
  simp only [toSimple_places, toSimple_transitions, toSimple_arcs,
    dictMem_keyMap, dictGet?_keyMap]
  by_cases h1 : (dictMem n.places s && dictMem n.transitions t) = true
  · rw [if_pos h1, if_pos h1]
    cases hp : dictGet? n.places s with
    | none => rfl
    | some p =>
      dsimp only [Option.map]
      rw [Tp101.PetriNet.toSimple]
      dsimp only
      rw [dictModify_keyMap Tp101.Transition.toSimple
        (fun tr => tr.add_input_arc p w)
        (fun tr => tr.add_input_arc p.toSimple w)
        (fun tr => toSimple_add_input_arc tr p w)]
  · rw [if_neg h1, if_neg h1]
    by_cases h2 : (dictMem n.transitions s && dictMem n.places t) = true
    · rw [if_pos h2, if_pos h2]
      cases hp : dictGet? n.places t with
      | none => rfl
      | some p =>
        dsimp only [Option.map]
        rw [Tp101.PetriNet.toSimple]
        dsimp only
        rw [dictModify_keyMap Tp101.Transition.toSimple
          (fun tr => tr.add_output_arc p w)
          (fun tr => tr.add_output_arc p.toSimple w)
          (fun tr => toSimple_add_output_arc tr p w)]
    · rw [if_neg h2, if_neg h2]
      rfl

theorem enabledScanT_toSimple (places : List (String × Tp101.Place))
    (l : List (String × Int)) :
    PetriNetSimple.enabledScan (places.map (fun kv => (kv.1, kv.2.toSimple))) l =
      Tp101.enabledScanT places l := by
  induction l with
  | nil => rfl
  | cons pw rest ih =>
    obtain ⟨name, weight⟩ := pw
    rw [PetriNetSimple.enabledScan, Tp101.enabledScanT, dictGet?_keyMap]
    cases dictGet? places name with
    | none => rfl
    | some p =>
      dsimp only [Option.map]
      rw [show (Tp101.Place.toSimple p).tokens = p.tokens from rfl]
      by_cases hw : weight ≤ p.tokens
      · rw [if_pos hw, if_pos hw, ih]
      · rw [if_neg hw, if_neg hw]

theorem is_enabled_toSimple (t : Tp101.Transition)
    (places : List (String × Tp101.Place)) :
    PetriNetSimple.Transition.is_enabled t.toSimple
      (places.map (fun kv => (kv.1, kv.2.toSimple))) = t.is_enabled places := by
  rw [PetriNetSimple.Transition.is_enabled, Tp101.Transition.is_enabled]
  exact enabledScanT_toSimple places t.input_arcs

theorem liveScanT_toSimple (places : List (String × Tp101.Place))
    (l : List (String × Tp101.Transition)) :
    PetriNetSimple.liveScan (places.map (fun kv => (kv.1, kv.2.toSimple)))
      (l.map (fun kv => (kv.1, kv.2.toSimple))) = Tp101.liveScanT places l := by
  induction l with
  | nil => rfl
  | cons kv rest ih =>
    rw [List.map_cons, PetriNetSimple.liveScan, Tp101.liveScanT]
    dsimp only
    rw [is_enabled_toSimple]
    cases kv.2.is_enabled places with
    | none => rfl
    | some b => cases b with
      | true => rfl
      | false => exact ih

theorem is_bounded_toSimple (n : Tp101.PetriNet) :
    n.toSimple.is_bounded = n.is_bounded := by
  rw [PetriNetSimple.PetriNet.is_bounded, Tp101.PetriNet.is_bounded,
    toSimple_places]
  induction n.places with
  | nil => rfl
  | cons kv rest ih =>
    rw [List.map_cons, List.all_cons, List.all_cons, ih]
    rfl

theorem has_live_toSimple (n : Tp101.PetriNet) :
    n.toSimple.has_live_transitions = n.has_live_transitions := by
  rw [PetriNetSimple.PetriNet.has_live_transitions,
    Tp101.PetriNet.has_live_transitions, toSimple_places, toSimple_transitions]
  exact liveScanT_toSimple n.places n.transitions

theorem toSimple_applyOp (n : Tp101.PetriNet) (op : NetOp) :
    (Tp101.applyOpT n op).toSimple = PetriNetSimple.applyOp n.toSimple op := by
  cases op with
  | addPlace name tokens => exact toSimple_add_place n name tokens
  | addTransition name => exact toSimple_add_transition n name
  | addArc s t w => exact toSimple_add_arc n s t w

theorem toSimple_runOps (ops : List NetOp) (n : Tp101.PetriNet) :
    (Tp101.runOpsT n ops).toSimple = PetriNetSimple.runOps n.toSimple ops := by
  induction ops generalizing n with
  | nil => rfl
  | cons op rest ih =>
    rw [Tp101.runOpsT, PetriNetSimple.runOps, ← toSimple_applyOp]
    exact ih _

/-- C8: the `PetriNet` implementations of `petrinetsimple.py` and `tp101.py`
are behaviourally equivalent — running any sequence of construction calls in
both produces the same net up to the field-preserving correspondence
`toSimple` (hence the same places map, transitions map and arc list), and
`is_bounded`, `has_live_transitions` and `is_enabled` (on the transition
registered under any name) return the same results. -/
theorem c8_behavioral_equivalence (ops : List NetOp) :
    (Tp101.run ops).toSimple = PetriNetSimple.run ops ∧
    (Tp101.run ops).arcs = (PetriNetSimple.run ops).arcs ∧
    (Tp101.run ops).is_bounded = (PetriNetSimple.run ops).is_bounded ∧
    (Tp101.run ops).has_live_transitions =
      (PetriNetSimple.run ops).has_live_transitions ∧
    ∀ name, (dictGet? (Tp101.run ops).transitions name).map
        (fun t => t.is_enabled (Tp101.run ops).places) =
      (dictGet? (PetriNetSimple.run ops).transitions name).map
        (fun t => t.is_enabled (PetriNetSimple.run ops).places) := by
  have h : (Tp101.run ops).toSimple = PetriNetSimple.run ops :=
    toSimple_runOps ops Tp101.PetriNet.empty
  refine ⟨h, ?_, ?_, ?_, ?_⟩
  · rw [← h, toSimple_arcs]
  · rw [← h, is_bounded_toSimple]
  · rw [← h, has_live_toSimple]
  · intro name
    rw [← h, toSimple_transitions, toSimple_places, dictGet?_keyMap]
    cases dictGet? (Tp101.run ops).transitions name with
    | none => rfl
    | some t =>
      dsimp only [Option.map]
      rw [is_enabled_toSimple]

/-- The spec's §8 end-to-end scenario: places `p1,p2,p3`, transitions
`t1,t2`, arcs `p1->t1, t1->p2, p2->t2`, marking `p1=1, p2=0, p3=2`. -/
def scenario8 : Tp1test.PetriNetAnalyzer × Option Tp1test.LoadError :=
  Tp1test.PetriNetAnalyzer.init.load_network ["p1", "p2", "p3"] ["t1", "t2"]
    [("p1", "t1"), ("t1", "p2"), ("p2", "t2")] [("p1", 1), ("p2", 0), ("p3", 2)]

/-- An analyzer that has successfully loaded a one-place one-transition net,
used as the prior state for the C4 counterexample. -/
def priorAnalyzer : Tp1test.PetriNetAnalyzer :=
  (Tp1test.PetriNetAnalyzer.init.load_network ["p1"] ["t1"] [("p1", "t1")]
    [("p1", 1)]).1

/-- A load call on `priorAnalyzer` whose arc names the undeclared node
`zz`, so validation fails. -/
def failedLoad : Tp1test.PetriNetAnalyzer × Option Tp1test.LoadError :=
  priorAnalyzer.load_network ["q1"] ["u1"] [("q1", "zz")] []

/-- C4: a failing `load_network` does raise a typed error, but it does not
leave the analyzer's prior state untouched — the places (and the other three
data fields) are already overwritten with the new values when the error is
raised; only the graph keeps its prior value. -/
theorem c4_counterexample :
    failedLoad.2 = some (Tp1test.LoadError.invalidDest "zz") ∧
    priorAnalyzer.places = ["p1"] ∧
    failedLoad.1.places = ["q1"] ∧
    failedLoad.1.graph = priorAnalyzer.graph := by decide

/-- C4 (amended): `load_network` raises its typed validation error before
any graph structure is built, leaving the graph exactly as it was before
the call — but the analyzer's places, transitions, arcs and marking fields
are overwritten with the (deduplicated / stripped) new values first, so a
failed load does not preserve them. -/
theorem c4_load_failure_overwrites (a : Tp1test.PetriNetAnalyzer)
    (places transitions : List String) (arcs : List (String × String))
    (marking : List (String × Int))
    (h : (a.load_network places transitions arcs marking).2.isSome = true) :
    (a.load_network places transitions arcs marking).1 =
      ⟨Tp1test.pySet places, Tp1test.pySet transitions,
       arcs.map (fun sd => (Tp1test.pyStrip sd.1, Tp1test.pyStrip sd.2)),
       marking.foldl (fun d pv => dictSet d (Tp1test.pyStrip pv.1) pv.2) [],
       a.graph⟩ := by
  unfold Tp1test.PetriNetAnalyzer.load_network at h ⊢
  dsimp only at h ⊢
  cases hv : Tp1test.PetriNetAnalyzer.validate_network
      ⟨Tp1test.pySet places, Tp1test.pySet transitions,
       arcs.map (fun sd => (Tp1test.pyStrip sd.1, Tp1test.pyStrip sd.2)),
       marking.foldl (fun d pv => dictSet d (Tp1test.pyStrip pv.1) pv.2) [],
       a.graph⟩ with
  | some e => rfl
  | none =>
    rw [hv] at h
    simp at h

/-- C4 witness: the amended theorem applied to the concrete failing load. -/
theorem c4_load_failure_overwrites_witness :
    failedLoad.1 =
      ⟨Tp1test.pySet ["q1"], Tp1test.pySet ["u1"],
       [("q1", "zz")].map (fun sd => (Tp1test.pyStrip sd.1, Tp1test.pyStrip sd.2)),
       ([] : List (String × Int)).foldl
         (fun d pv => dictSet d (Tp1test.pyStrip pv.1) pv.2) [],
       priorAnalyzer.graph⟩ :=
  c4_load_failure_overwrites priorAnalyzer ["q1"] ["u1"] [("q1", "zz")] []
    (by decide)

/-- A successfully loaded net containing the transition→transition arc
`t2 -> t1` (load-time validation accepts it: both endpoints are declared).
Transition `t1` has the non-empty input-place set consisting of `p1`, holding
1 > 0 tokens. -/
def mixedNet : Tp1test.PetriNetAnalyzer × Option Tp1test.LoadError :=
  Tp1test.PetriNetAnalyzer.init.load_network ["p1"] ["t1", "t2"]
    [("p1", "t1"), ("t2", "t1")] [("p1", 1)]

/-- C6: the claim predicts that `t1` — whose input-place set is non-empty
and whose every input place holds > 0 tokens — is returned, but the code
treats every arc source as an input, so the transition source `t2` (marking
0) excludes `t1` and `get_enabled_transitions` returns the empty list. -/
theorem c6_counterexample :
    mixedNet.2 = none ∧
    "t1" ∈ mixedNet.1.transitions ∧
    ("p1", "t1") ∈ mixedNet.1.arcs ∧ "p1" ∈ mixedNet.1.places ∧
    "t2" ∉ mixedNet.1.places ∧
    (∀ s ∈ Tp1test.inputsOf mixedNet.1 "t1",
      s ∈ mixedNet.1.places → 0 < Tp1test.markingGet mixedNet.1 s) ∧
    mixedNet.1.get_enabled_transitions = [] := by decide

/-- C6 (amended): `get_enabled_transitions` returns exactly the transitions
with at least one incoming arc and whose every incoming-arc source — place
or not — has a strictly positive `marking.get(source, 0)`; the returned
order is the model's fixed iteration order of the transition set, and on
the §8 scenario the result is exactly `[t1]`. -/
theorem c6_enabled_characterization (a : Tp1test.PetriNetAnalyzer) :
    (∀ t, t ∈ a.get_enabled_transitions ↔
      (t ∈ a.transitions ∧ Tp1test.inputsOf a t ≠ [] ∧
        ∀ s ∈ Tp1test.inputsOf a t, 0 < Tp1test.markingGet a s)) ∧
    scenario8.2 = none ∧
    scenario8.1.get_enabled_transitions = ["t1"] := by
  refine ⟨fun t => ?_, by decide, by decide⟩
  rw [Tp1test.PetriNetAnalyzer.get_enabled_transitions, List.mem_filter]
  simp [Tp1test.enabledCond, List.isEmpty_iff, and_assoc]

/-- C6 witness: the characterization applied to the §8 scenario and `t1`. -/
theorem c6_enabled_characterization_witness :
    "t1" ∈ scenario8.1.get_enabled_transitions :=
  ((c6_enabled_characterization scenario8.1).1 "t1").mpr
    ⟨by decide, by decide, by decide⟩

/-- A successfully loaded net where `t1` has the input place `p1` (1 > 0
tokens), the output place `p2`, and additionally the transition→transition
arc `t2 -> t1`. -/
def mixedNet2 : Tp1test.PetriNetAnalyzer × Option Tp1test.LoadError :=
  Tp1test.PetriNetAnalyzer.init.load_network ["p1", "p2"] ["t1", "t2"]
    [("p1", "t1"), ("t2", "t1"), ("t1", "p2")] [("p1", 1)]

/-- C7: the claim predicts liveness 1/2 — `t1` has an input place (`p1`,
positive), an output place (`p2`), while `t2` has no inputs — but the code
counts the transition source `t2` (marking 0) among `t1`'s inputs and
returns 0. -/
theorem c7_counterexample :
    mixedNet2.2 = none ∧
    ("p1", "t1") ∈ mixedNet2.1.arcs ∧ "p1" ∈ mixedNet2.1.places ∧
    ("t1", "p2") ∈ mixedNet2.1.arcs ∧ "p2" ∈ mixedNet2.1.places ∧
    Tp1test.markingGet mixedNet2.1 "p1" = 1 ∧
    (∀ s ∈ Tp1test.inputsOf mixedNet2.1 "t1",
      s ∈ mixedNet2.1.places → 0 < Tp1test.markingGet mixedNet2.1 s) ∧
    mixedNet2.1.analyze_liveness = 0 := by
  refine ⟨by decide, by decide, by decide, by decide, by decide, by decide,
    by decide, ?_⟩
  have h1 : mixedNet2.1.transitions.isEmpty = false := by decide
  have h2 : mixedNet2.1.transitions.filter (Tp1test.liveCond mixedNet2.1) = [] := by
    decide
  rw [Tp1test.PetriNetAnalyzer.analyze_liveness, h1, h2]
  simp

/-- C7 (amended): `analyze_liveness` returns the fraction of transitions
with at least one incoming arc, at least one outgoing arc, and all
incoming-arc sources (places or not) strictly positive under
`marking.get(·, 0)`; the result lies in [0, 1], and a net with zero
transitions yields exactly 0. -/
theorem c7_liveness_bounds (a : Tp1test.PetriNetAnalyzer) :
    0 ≤ a.analyze_liveness ∧ a.analyze_liveness ≤ 1 ∧
    (a.transitions = [] → a.analyze_liveness = 0) ∧
    (a.transitions ≠ [] →
      a.analyze_liveness =
        ((a.transitions.filter (fun t =>
          decide (Tp1test.inputsOf a t ≠ [] ∧ Tp1test.outputsOf a t ≠ [] ∧
            ∀ s ∈ Tp1test.inputsOf a t,
              0 < Tp1test.markingGet a s))).length : ℚ) /
          (a.transitions.length : ℚ)) := by
  have hcond : Tp1test.liveCond a = fun t =>
      decide (Tp1test.inputsOf a t ≠ [] ∧ Tp1test.outputsOf a t ≠ [] ∧
        ∀ s ∈ Tp1test.inputsOf a t, 0 < Tp1test.markingGet a s) := by
    funext t
    rw [Bool.eq_iff_iff]
    simp [Tp1test.liveCond, List.isEmpty_iff, and_assoc]
  refine ⟨?_, ?_, ?_, ?_⟩
  · rw [Tp1test.PetriNetAnalyzer.analyze_liveness]
    split
    · exact le_refl 0
    · positivity
  · rw [Tp1test.PetriNetAnalyzer.analyze_liveness]
    split
    · exact zero_le_one
    · rename_i hne
      rw [div_le_one (by
        have : a.transitions ≠ [] := by
          simpa [List.isEmpty_iff] using hne
        have := List.length_pos.mpr this
        exact_mod_cast this)]
      exact_mod_cast List.length_filter_le _ _
  · intro h
    rw [Tp1test.PetriNetAnalyzer.analyze_liveness, h]
    rfl
  · intro hne
    rw [Tp1test.PetriNetAnalyzer.analyze_liveness, hcond,
      if_neg (by simpa [List.isEmpty_iff] using hne)]

/-- C7 witness: the zero-transitions case of the amended theorem applied to
the freshly constructed analyzer. -/
theorem c7_liveness_bounds_witness :
    Tp1test.PetriNetAnalyzer.init.analyze_liveness = 0 :=
  (c7_liveness_bounds Tp1test.PetriNetAnalyzer.init).2.2.1 rfl

/-- C10: every transition counted structurally live by `analyze_liveness`
satisfies the enabling test of `get_enabled_transitions` (the live set is a
subset of the enabled set), and a strictly positive liveness fraction
forces `get_enabled_transitions` to be non-empty. -/
theorem c10_live_subset_enabled (a : Tp1test.PetriNetAnalyzer) :
    (∀ t, Tp1test.liveCond a t = true → Tp1test.enabledCond a t = true) ∧
    (∀ t ∈ a.transitions.filter (Tp1test.liveCond a),
      t ∈ a.get_enabled_transitions) ∧
    (0 < a.analyze_liveness → a.get_enabled_transitions ≠ []) := by
  have himp : ∀ t, Tp1test.liveCond a t = true → Tp1test.enabledCond a t = true := by
    intro t h
    rw [Tp1test.liveCond] at h
    rw [Tp1test.enabledCond]
    simp only [Bool.and_eq_true] at h ⊢
    exact ⟨h.1.1, h.2⟩
  have hmem : ∀ t ∈ a.transitions.filter (Tp1test.liveCond a),
      t ∈ a.get_enabled_transitions := by
    intro t ht
    rw [List.mem_filter] at ht
    rw [Tp1test.PetriNetAnalyzer.get_enabled_transitions, List.mem_filter]
    exact ⟨ht.1, himp t ht.2⟩
  refine ⟨himp, hmem, ?_⟩
  intro hpos hempty
  have hfl : a.transitions.filter (Tp1test.liveCond a) = [] := by
    rcases hx : a.transitions.filter (Tp1test.liveCond a) with _ | ⟨t, rest⟩
    · rfl
    · have ht : t ∈ a.transitions.filter (Tp1test.liveCond a) := by
        rw [hx]; exact List.mem_cons_self _ _
      exact absurd hempty (List.ne_nil_of_mem (hmem t ht))
  have hzero : a.analyze_liveness = 0 := by
    rw [Tp1test.PetriNetAnalyzer.analyze_liveness, hfl]
    simp
  rw [hzero] at hpos
  exact lt_irrefl 0 hpos

/-- C10 witness: on the §8 scenario the liveness fraction is 1/2 > 0, so
the theorem yields a non-empty enabled-transition list. -/
theorem c10_live_subset_enabled_witness :
    scenario8.1.get_enabled_transitions ≠ [] := by
  refine (c10_live_subset_enabled scenario8.1).2.2 ?_
  have h1 : scenario8.1.transitions.isEmpty = false := by decide
  have h2 : scenario8.1.transitions.filter (Tp1test.liveCond scenario8.1) =
      ["t1"] := by decide
  have h3 : scenario8.1.transitions.length = 2 := by decide
  rw [Tp1test.PetriNetAnalyzer.analyze_liveness, h1, h2, h3]
  norm_num

